import Mathlib

/-!
Verification development for the reactivity core and template optimizer of a
Vue-2.6.14-style reactive UI runtime.

The definitions below are shallow embeddings of the JavaScript sources:

* `src/core/observer/scheduler.js` — the watcher scheduler
  (`queueWatcher`, `flushSchedulerQueue`, `MAX_UPDATE_COUNT`);
* `src/core/observer/watcher.js` — the `Watcher` class
  (`addDep`, `cleanupDeps`, `get`, `run`, `teardown`, the constructor);
* the next-tick module — `nextTick` / `flushCallbacks`;
* the static optimizer — `optimize`, `markStatic`, `markStaticRoots`,
  `isStatic`, `isDirectChildOfTemplateFor`.

Machine integers do not occur (all counters are small naturals), side effects
are made explicit by threading state records, and the re-entrant parts
(watchers dirtying other watchers while the queue flushes, callbacks
registering callbacks while the tick list flushes) are modelled by an explicit
environment mapping each watcher/callback id to the ids it dirties/registers
when it runs.
-/

namespace Vue

/-! ### Scheduler (`src/core/observer/scheduler.js`)

Watchers are identified by their numeric `id`.  The scheduler state mirrors
the module-level mutable variables of `scheduler.js`.  The `runLog` and
`warnLog` fields are observation logs recording, in order, each `watcher.run()`
invocation made by the flush loop and each circular-update warning; they model
the observable behaviour and are touched by no branch decision.  The
`before` hooks, flush timestamps, devtools hook and the
activated/updated lifecycle post-queues of `flushSchedulerQueue` are external
collaborators (out of the reactivity core) and have no bearing on queue
contents or run order, so they are not part of the state.  The circular-update
guard is the development-build behaviour (`NODE_ENV !== 'production'`), which
is the behaviour the specification describes; `warn` is a console diagnostic,
not an exception, hence a log entry. -/

/-- `MAX_UPDATE_COUNT` from `scheduler.js`. -/
def MAX_UPDATE_COUNT : Nat := 100

/-- The scheduler's module-level state: `queue`, `has`, `circular`,
`waiting`, `flushing`, `index` (plus the two observation logs).
`has` is the presence set (`has[id] = true` is membership, `has[id] = null`
is absence); `circular` is the per-id re-queue counter, as an association
list where the most recent entry shadows older ones. -/
structure SchedState where
  queue : List Nat
  has : List Nat
  circular : List (Nat × Nat)
  waiting : Bool
  flushing : Bool
  index : Nat
  runLog : List Nat
  warnLog : List Nat
deriving Repr

/-- The initial (idle) scheduler state. -/
def idleSched : SchedState :=
  { queue := [], has := [], circular := [], waiting := false,
    flushing := false, index := 0, runLog := [], warnLog := [] }

/-- The reactive environment a flush runs in: `beh w` lists, in order, the ids
of the watchers that get dirtied (and hence passed to `queueWatcher`) while
watcher `w` runs; `activeOf w` is watcher `w`'s `active` flag (a torn-down
watcher's `run()` is a no-op, so it dirties nothing). -/
structure SchedEnv where
  beh : Nat → List Nat
  activeOf : Nat → Bool

/-- The backward scan of `queueWatcher`'s flushing branch:
`let i = queue.length - 1; while (i > index && queue[i].id > watcher.id) i--`,
returning the splice position `i + 1`.  The argument is the running value of
`i`; the scan starts at `queue.length - 1`. -/
def scanBack (q : List Nat) (idx wid : Nat) : Nat → Nat
  | 0 => 1
  | i + 1 => if idx < i + 1 ∧ wid < q.getD (i + 1) 0 then scanBack q idx wid i else i + 2

/-- `queueWatcher` from `scheduler.js`: dedupe on `has`; while not flushing,
append to the queue; while flushing, splice the id in right after the
backward scan's stop position; finally set `waiting` (the `nextTick`
scheduling of the flush callback). -/
def queueWatcher (wid : Nat) (s : SchedState) : SchedState :=
  if wid ∈ s.has then s
  else
    let s1 := { s with has := wid :: s.has }
    let s2 :=
      if s1.flushing then
        let pos := scanBack s1.queue s1.index wid (s1.queue.length - 1)
        { s1 with queue := s1.queue.take pos ++ wid :: s1.queue.drop pos }
      else { s1 with queue := s1.queue ++ [wid] }
    if s2.waiting then s2 else { s2 with waiting := true }

/-- `watcher.run()` as seen by the scheduler: an active watcher dirties the
watchers listed by the environment (each goes through `queueWatcher`); a
torn-down (inactive) watcher does nothing. -/
def runWatcher (env : SchedEnv) (wid : Nat) (s : SchedState) : SchedState :=
  if env.activeOf wid then (env.beh wid).foldl (fun acc v => queueWatcher v acc) s else s

/-- Look up a circular counter (absent ids count 0). -/
def circCount (l : List (Nat × Nat)) (wid : Nat) : Nat :=
  ((l.lookup wid).getD 0)

/-- One iteration of the flush loop body of `flushSchedulerQueue`: read the
watcher at `index`, clear its presence marker, run it, then apply the
circular-update check; the returned flag is `true` when the `break` fires. -/
def flushIter (env : SchedEnv) (s : SchedState) : SchedState × Bool :=
  let wid := s.queue.getD s.index 0
  let s1 := { s with has := s.has.erase wid }
  let s2 := runWatcher env wid s1
  let s3 := { s2 with runLog := s2.runLog ++ [wid] }
  if wid ∈ s3.has then
    let c := circCount s3.circular wid + 1
    let s4 := { s3 with circular := (wid, c) :: s3.circular }
    if MAX_UPDATE_COUNT < c then ({ s4 with warnLog := s4.warnLog ++ [wid] }, true)
    else ({ s4 with index := s4.index + 1 }, false)
  else ({ s3 with index := s3.index + 1 }, false)

/-- The flush loop `for (index = 0; index < queue.length; index++) { ... }`,
with the re-read of `queue.length` on every iteration and the circular-update
`break`.  `fuel` bounds the number of iterations (the JS loop is unbounded;
every theorem below supplies enough fuel for its scenario). -/
def flushLoop (env : SchedEnv) : Nat → SchedState → SchedState
  | 0, s => s
  | fuel + 1, s =>
    if s.index < s.queue.length then
      let (s1, brk) := flushIter env s
      if brk then s1 else flushLoop env fuel s1
    else s

/-- `resetSchedulerState` from `scheduler.js`. -/
def resetSchedulerState (s : SchedState) : SchedState :=
  { s with index := 0, queue := [], has := [], circular := [],
           waiting := false, flushing := false }

/-- `flushSchedulerQueue`: set `flushing`, sort the whole queue ascending by
id (`queue.sort((a, b) => a.id - b.id)`, a stable ascending sort, embedded as
insertion sort), run the loop, then reset the scheduler state.  The
activated/updated lifecycle hook batches that follow the reset concern
component lifecycle (out of scope) and touch no scheduler state. -/
def flushSchedulerQueue (env : SchedEnv) (fuel : Nat) (s : SchedState) : SchedState :=
  let s1 := { s with flushing := true }
  let s2 := { s1 with queue := s1.queue.insertionSort (· ≤ ·) }
  let s3 := flushLoop env fuel { s2 with index := 0 }
  resetSchedulerState s3

/-- Enqueue a list of watcher ids in order (the dirtying order of one
synchronous turn). -/
def enqueueAll (l : List Nat) (s : SchedState) : SchedState :=
  l.foldl (fun acc w => queueWatcher w acc) s

/-- An environment in which no watcher dirties anything while running. -/
def quietEnv : SchedEnv := ⟨fun _ => [], fun _ => true⟩

/-! ### Watcher id assignment (`watcher.js` constructor)

`this.id = ++uid` — the constructor increments the module counter and takes
its value. -/

/-- `++uid` followed by `this.id = uid`: returns (new id, new counter). -/
def nextUid (uid : Nat) : Nat × Nat := (uid + 1, uid + 1)

/-- The ids handed out by `n` successive watcher constructions starting from
counter value `uid`. -/
def assignIds (uid : Nat) : Nat → List Nat
  | 0 => []
  | n + 1 => (nextUid uid).1 :: assignIds (nextUid uid).2 n

/-! ### Lemmas about enqueueing before a flush -/

/-- State invariant between flushes: not flushing, cursor at 0, empty run log,
no duplicate ids, and the presence set `has` agreeing with the queue. -/
def preFlushInv (s : SchedState) : Prop :=
  s.flushing = false ∧ s.index = 0 ∧ s.runLog = [] ∧
  s.queue.Nodup ∧ s.has.Nodup ∧ (∀ x, x ∈ s.queue ↔ x ∈ s.has)

theorem preFlushInv_idle : preFlushInv idleSched := by
  refine ⟨rfl, rfl, rfl, ?_, ?_, ?_⟩ <;> simp [idleSched]

/-- Field-level description of `queueWatcher` for a fresh id while no flush
is in progress: the id is appended to the queue and recorded in `has`;
everything except `waiting` is otherwise untouched. -/
theorem queueWatcher_not_flushing (wid : Nat) (s : SchedState)
    (hm : wid ∉ s.has) (hf : s.flushing = false) :
    (queueWatcher wid s).queue = s.queue ++ [wid] ∧
    (queueWatcher wid s).has = wid :: s.has ∧
    (queueWatcher wid s).flushing = s.flushing ∧
    (queueWatcher wid s).index = s.index ∧
    (queueWatcher wid s).runLog = s.runLog := by
  unfold queueWatcher
  simp only [hm, if_neg, not_false_iff, hf, Bool.false_eq_true, if_false]
  by_cases hw : s.waiting <;> simp [hw, hf]

theorem queueWatcher_preFlush (wid : Nat) (s : SchedState) (h : preFlushInv s) :
    preFlushInv (queueWatcher wid s) ∧
    (∀ x, x ∈ (queueWatcher wid s).queue ↔ x ∈ s.queue ∨ x = wid) := by
  obtain ⟨hf, hi, hr, hq, hh, hqh⟩ := h
  by_cases hmem : wid ∈ s.has
  · have heq : queueWatcher wid s = s := by
      unfold queueWatcher
      simp [hmem]
    rw [heq]
    refine ⟨⟨hf, hi, hr, hq, hh, hqh⟩, fun x => ?_⟩
    constructor
    · exact fun hx => Or.inl hx
    · rintro (hx | rfl)
      · exact hx
      · exact (hqh x).mpr hmem
  · obtain ⟨e1, e2, e3, e4, e5⟩ := queueWatcher_not_flushing wid s hmem hf
    have hwq : wid ∉ s.queue := fun hx => hmem ((hqh wid).mp hx)
    refine ⟨⟨by rw [e3, hf], by rw [e4, hi], by rw [e5, hr], ?_, ?_, ?_⟩, fun x => ?_⟩
    · rw [e1]
      simp [List.nodup_append, hq, hwq]
    · rw [e2]
      exact List.Nodup.cons hmem hh
    · intro x
      rw [e1, e2]
      simp only [List.mem_append, List.mem_singleton, List.mem_cons, hqh x]
      tauto
    · rw [e1]
      simp [or_comm]

theorem enqueueAll_preFlush (l : List Nat) (s : SchedState) (h : preFlushInv s) :
    preFlushInv (enqueueAll l s) ∧
    (∀ x, x ∈ (enqueueAll l s).queue ↔ x ∈ s.queue ∨ x ∈ l) := by
  induction l generalizing s with
  | nil => simpa [enqueueAll] using h
  | cons a t ih =>
    obtain ⟨h1, h2⟩ := queueWatcher_preFlush a s h
    obtain ⟨h3, h4⟩ := ih (queueWatcher a s) h1
    refine ⟨h3, fun x => ?_⟩
    rw [show enqueueAll (a :: t) s = enqueueAll t (queueWatcher a s) from rfl] at *
    rw [h4 x, h2 x]
    simp [or_assoc, or_comm, or_left_comm]

/-! ### The flush loop when nothing is re-queued -/

theorem flushLoop_quiet (fuel : Nat) :
    ∀ s : SchedState, s.has.Nodup → s.queue.length - s.index ≤ fuel →
      (flushLoop quietEnv fuel s).runLog = s.runLog ++ s.queue.drop s.index ∧
      (flushLoop quietEnv fuel s).flushing = s.flushing := by
  induction fuel with
  | zero =>
    intro s _ hfuel
    have : s.queue.length ≤ s.index := by omega
    simp [flushLoop, List.drop_eq_nil_of_le this]
  | succ fuel ih =>
    intro s hh hfuel
    by_cases hlt : s.index < s.queue.length
    · have hget : s.queue.getD s.index 0 = s.queue[s.index] :=
        List.getD_eq_getElem s.queue 0 hlt
      have hdrop : s.queue.drop s.index = s.queue[s.index] :: s.queue.drop (s.index + 1) :=
        List.drop_eq_getElem_cons hlt
      have hnm : s.queue[s.index] ∉ s.has.erase s.queue[s.index] := by
        intro hx
        exact ((List.Nodup.mem_erase_iff hh).mp hx).1 rfl
      have hstep : flushLoop quietEnv (fuel + 1) s =
          flushLoop quietEnv fuel
            { s with has := s.has.erase s.queue[s.index],
                     runLog := s.runLog ++ [s.queue[s.index]],
                     index := s.index + 1 } := by
        simp only [flushLoop, hlt, if_pos, flushIter, runWatcher, quietEnv,
          List.foldl_nil, hget, if_pos]
        simp [hnm]
      rw [hstep]
      obtain ⟨h1, h2⟩ := ih
        { s with has := s.has.erase s.queue[s.index],
                 runLog := s.runLog ++ [s.queue[s.index]],
                 index := s.index + 1 }
        (List.Nodup.erase _ hh) (by simp only []; omega)
      refine ⟨?_, by simpa using h2⟩
      rw [h1]
      simp only [hdrop]
      simp
    · have hle : s.queue.length ≤ s.index := by omega
      simp [flushLoop, hlt, List.drop_eq_nil_of_le hle]

/-! ### Watcher id assignment is strictly increasing -/

theorem assignIds_mem_gt (n : Nat) : ∀ uid x, x ∈ assignIds uid n → uid < x := by
  induction n with
  | zero => intro uid x hx; simp [assignIds] at hx
  | succ n ih =>
    intro uid x hx
    simp only [assignIds, nextUid, List.mem_cons] at hx
    rcases hx with rfl | hx
    · omega
    · have := ih (uid + 1) x hx
      omega

theorem assignIds_sorted (uid n : Nat) : (assignIds uid n).Sorted (· < ·) := by
  induction n generalizing uid with
  | zero => simp [assignIds]
  | succ n ih =>
    simp only [assignIds, nextUid, List.sorted_cons]
    exact ⟨fun x hx => assignIds_mem_gt n (uid + 1) x hx, ih (uid + 1)⟩

/-- **C1** — Watchers enqueued in one synchronous turn before a flush begins
are run by the flush in strictly ascending id order, whatever the dirtying
order `l` was: the run log of `flushSchedulerQueue` is sorted ascending and
contains exactly the enqueued ids.  Moreover watcher ids are assigned from a
monotonically increasing counter (`this.id = ++uid`), so successively
constructed watchers receive strictly increasing ids. -/
theorem flush_runs_ascending_by_id (l : List Nat) (uid n : Nat) :
    ((flushSchedulerQueue quietEnv (enqueueAll l idleSched).queue.length
        (enqueueAll l idleSched)).runLog.Sorted (· < ·) ∧
      (∀ x, x ∈ (flushSchedulerQueue quietEnv (enqueueAll l idleSched).queue.length
        (enqueueAll l idleSched)).runLog ↔ x ∈ l)) ∧
    (assignIds uid n).Sorted (· < ·) := by
  obtain ⟨⟨hf, hi, hr, hq, hh, hqh⟩, hmem⟩ :=
    enqueueAll_preFlush l idleSched preFlushInv_idle
  set s := enqueueAll l idleSched with hs
  have hperm : List.Perm (s.queue.insertionSort (· ≤ ·)) s.queue :=
    List.perm_insertionSort _ s.queue
  have hsorted : (s.queue.insertionSort (· ≤ ·)).Sorted (· ≤ ·) :=
    List.sorted_insertionSort _ s.queue
  have hnd : (s.queue.insertionSort (· ≤ ·)).Nodup := hperm.nodup_iff.mpr hq
  have hlen : (s.queue.insertionSort (· ≤ ·)).length = s.queue.length :=
    hperm.length_eq
  have hloop := flushLoop_quiet s.queue.length
    { s with flushing := true, queue := s.queue.insertionSort (· ≤ ·), index := 0 }
    hh (by simp [hlen])
  have hrun : (flushSchedulerQueue quietEnv s.queue.length s).runLog =
      s.queue.insertionSort (· ≤ ·) := by
    unfold flushSchedulerQueue resetSchedulerState
    simp only []
    rw [hloop.1]
    simp [hr]
  refine ⟨⟨?_, ?_⟩, assignIds_sorted uid n⟩
  · rw [hrun]
    exact List.Pairwise.imp₂ (fun a b hab hne => lt_of_le_of_ne hab hne) hsorted hnd
  · intro x
    rw [hrun, hperm.mem_iff, hmem x]
    simp [idleSched]

/-! ### Mid-flush insertion (`queueWatcher` while `flushing`) -/

/-- If every queue entry strictly after the cursor has an id above `wid`, the
backward scan stops at the cursor and yields splice position `index + 1`. -/
theorem scanBack_all_gt (q : List Nat) (idx wid : Nat) :
    ∀ i, idx ≤ i → (∀ j, idx < j → j ≤ i → wid < q.getD j 0) →
      scanBack q idx wid i = idx + 1 := by
  intro i
  induction i with
  | zero =>
    intro h _
    have : idx = 0 := by omega
    subst this
    simp [scanBack]
  | succ i ih =>
    intro hle hall
    by_cases hcase : idx = i + 1
    · subst hcase
      simp [scanBack]
    · have hle2 : idx ≤ i := by omega
      have hcond : idx < i + 1 ∧ wid < q.getD (i + 1) 0 :=
        ⟨by omega, hall (i + 1) (by omega) le_rfl⟩
      rw [scanBack, if_pos hcond]
      exact ih hle2 (fun j h1 h2 => hall j h1 (by omega))

/-- If the scan's condition fails at the starting position, the splice
position is immediately after it. -/
theorem scanBack_stop (q : List Nat) (idx wid : Nat) :
    ∀ i, ¬(idx < i ∧ wid < q.getD i 0) → scanBack q idx wid i = i + 1 := by
  intro i h
  cases i with
  | zero => simp [scanBack]
  | succ i => rw [scanBack, if_neg h]

/-- Mid-flush `queueWatcher` of an id smaller than everything after the
cursor (for example an id that already ran, once the queue is sorted): the
watcher is spliced in immediately after the cursor, at `index + 1`. -/
theorem queueWatcher_midFlush_small (wid : Nat) (s : SchedState)
    (hf : s.flushing = true) (hm : wid ∉ s.has) (hlt : s.index < s.queue.length)
    (hall : ∀ j, j < s.queue.length → s.index < j → wid < s.queue.getD j 0) :
    (queueWatcher wid s).queue =
      s.queue.take (s.index + 1) ++ wid :: s.queue.drop (s.index + 1) := by
  unfold queueWatcher
  simp only [hm, if_neg, not_false_iff, hf, if_pos]
  have hpos : scanBack s.queue s.index wid (s.queue.length - 1) = s.index + 1 :=
    scanBack_all_gt s.queue s.index wid (s.queue.length - 1) (by omega)
      (fun j h1 h2 => hall j (by omega) h1)
  by_cases hw : s.waiting <;> simp [hw, hpos]

/-- Mid-flush `queueWatcher` of an id at least as large as the queue's last
entry: the watcher is appended at the end of the queue (so it is picked up
later in this same flush). -/
theorem queueWatcher_midFlush_large (wid : Nat) (s : SchedState)
    (hf : s.flushing = true) (hm : wid ∉ s.has) (hne : s.queue ≠ [])
    (hlast : s.queue.getD (s.queue.length - 1) 0 ≤ wid) :
    (queueWatcher wid s).queue = s.queue ++ [wid] := by
  unfold queueWatcher
  simp only [hm, if_neg, not_false_iff, hf, if_pos]
  have hpos : scanBack s.queue s.index wid (s.queue.length - 1) =
      (s.queue.length - 1) + 1 :=
    scanBack_stop s.queue s.index wid (s.queue.length - 1) (by omega)
  have hlen : (s.queue.length - 1) + 1 = s.queue.length := by
    have : 0 < s.queue.length := List.length_pos.mpr hne
    omega
  by_cases hw : s.waiting <;>
    simp [hw, hpos, hlen, List.take_length, List.drop_length]

/-- The environment of the claim's scenario: while watcher 5 runs it dirties
watcher 3 (which already ran in this flush) and watcher 10. -/
def midFlushEnv : SchedEnv := ⟨fun x => if x = 5 then [3, 10] else [], fun _ => true⟩

/-- **C2 counterexample** — With watchers 3 and 5 dirtied before the flush,
and watcher 5's run dirtying watcher 3 (which already ran) and watcher 10,
watcher 3 runs TWICE in the flush (the claim says it must not run again);
watcher 10 does run later in the same flush. -/
theorem midFlush_rerun_ce :
    (flushSchedulerQueue midFlushEnv 10 (enqueueAll [5, 3] idleSched)).runLog.count 3 = 2 ∧
    10 ∈ (flushSchedulerQueue midFlushEnv 10 (enqueueAll [5, 3] idleSched)).runLog := by
  decide

/-- **C2 (amended)** — If, while the flush is processing the watcher at the
current cursor, `queueWatcher` is called for a watcher whose id is below every
entry after the cursor (in particular a smaller id that already ran in this
flush), that watcher is spliced in immediately after the cursor and therefore
RUNS AGAIN in this same flush; a watcher with a larger id than every queued
entry is appended and runs later in this same flush.  Concretely, processing
id 5 with ids 3 and 10 dirtied mid-run produces the run order 3, 5, 3, 10. -/
theorem midFlush_insertion_amended :
    (∀ wid s, s.flushing = true → wid ∉ s.has → s.index < s.queue.length →
      (∀ j, j < s.queue.length → s.index < j → wid < s.queue.getD j 0) →
      (queueWatcher wid s).queue =
        s.queue.take (s.index + 1) ++ wid :: s.queue.drop (s.index + 1)) ∧
    (∀ wid s, s.flushing = true → wid ∉ s.has → s.queue ≠ [] →
      s.queue.getD (s.queue.length - 1) 0 ≤ wid →
      (queueWatcher wid s).queue = s.queue ++ [wid]) ∧
    (flushSchedulerQueue midFlushEnv 10 (enqueueAll [5, 3] idleSched)).runLog =
      [3, 5, 3, 10] := by
  refine ⟨?_, ?_, by decide⟩
  · intro wid s h1 h2 h3 h4
    exact queueWatcher_midFlush_small wid s h1 h2 h3 h4
  · intro wid s h1 h2 h3 h4
    exact queueWatcher_midFlush_large wid s h1 h2 h3 h4

/-- Witness for the amended C2 statement: a concrete mid-flush state (cursor
at position 1 of queue `[1, 5, 9]`) receiving id 3 splices it right after the
cursor, and the same state's queue `[1, 5]` receiving id 10 appends it. -/
theorem midFlush_insertion_amended_w :
    (queueWatcher 3 ⟨[1, 5, 9], [], [], true, true, 1, [], []⟩).queue = [1, 5, 3, 9] ∧
    (queueWatcher 10 ⟨[1, 5], [], [], true, true, 1, [], []⟩).queue = [1, 5, 10] := by
  constructor
  · have h := midFlush_insertion_amended.1 3 ⟨[1, 5, 9], [], [], true, true, 1, [], []⟩
      rfl (by decide) (by decide) (by decide)
    simpa using h
  · have h := midFlush_insertion_amended.2.1 10 ⟨[1, 5], [], [], true, true, 1, [], []⟩
      rfl (by decide) (by decide) (by decide)
    simpa using h

/-! ### The circular-update guard -/

/-- The environment of the circular-update scenario: watcher 1 re-dirties
itself unconditionally on every run; watcher 2 is an innocent bystander. -/
def circularEnv : SchedEnv := ⟨fun x => if x = 1 then [1] else [], fun _ => true⟩

set_option maxRecDepth 100000 in
/-- **C3 counterexample** — A watcher that re-dirties itself unconditionally
runs 101 times (not exactly 100) before the guard fires: the counter
`circular[id]` must EXCEED `MAX_UPDATE_COUNT = 100`, which happens on the
101st run.  Moreover the guard's `break` exits the whole flush loop, so the
still-pending watcher 2 is NOT run in that flush (the claim says the loop
keeps running all other still-pending watchers). -/
theorem circular_guard_ce :
    (flushSchedulerQueue circularEnv 150 (enqueueAll [1, 2] idleSched)).runLog.count 1 = 101 ∧
    2 ∉ (flushSchedulerQueue circularEnv 150 (enqueueAll [1, 2] idleSched)).runLog := by
  decide

set_option maxRecDepth 100000 in
/-- **C3 (amended)** — A watcher that unconditionally re-dirties itself is
run 101 times within one flush and then stopped: on the 101st run its
per-flush re-queue counter exceeds `MAX_UPDATE_COUNT = 100`, a diagnostic
warning is emitted (no exception is thrown — the model is total and records
the warning in a log), and the loop `break`s, which also abandons the
remaining still-pending watchers of that flush (watcher 2 never runs); the
scheduler state is then reset (`flushing` cleared, queue emptied). -/
theorem circular_guard_amended :
    (flushSchedulerQueue circularEnv 150 (enqueueAll [1, 2] idleSched)).runLog =
      List.replicate 101 1 ∧
    (flushSchedulerQueue circularEnv 150 (enqueueAll [1, 2] idleSched)).warnLog = [1] ∧
    (flushSchedulerQueue circularEnv 150 (enqueueAll [1, 2] idleSched)).flushing = false ∧
    (flushSchedulerQueue circularEnv 150 (enqueueAll [1, 2] idleSched)).queue = [] := by
  decide

/-! ### The Watcher (`src/core/observer/watcher.js`)

Runtime JS values as far as `Watcher.run`'s change test observes them:
`!==` compares primitives by value and objects/arrays by reference, so an
object value is represented by a reference identity.  `undef` is
`undefined`. -/

inductive Val where
  | undef
  | prim (n : Nat)
  | obj (ref : Nat)
deriving DecidableEq, Repr

/-- `isObject` from `shared/util`.  Modelled from the spec: the helper's
source is not under `src/`; per the spec, objects/arrays are the non-primitive
values ("the value is a non-primitive — objects/arrays"), everything else
(primitives, `undefined`) is not. -/
def isObject : Val → Bool
  | .obj _ => true
  | _ => false

/-- The state of one watcher, together with its view of the dependency graph.
`deps`/`depIds` are the trackers collected by the previous evaluation,
`newDeps`/`newDepIds` the ones being collected by the current evaluation
(`Dep`s are identified by their numeric id).  `subs` is this watcher's
membership across all `Dep.subs` subscriber lists: the set of tracker ids
whose subscriber list currently contains this watcher.  `Dep.addSub` /
`Dep.removeSub` are modelled from the spec (`dep.js` is not under `src/`):
"addSubscriber(watcher) — idempotent add by identity. removeSubscriber(watcher)
— no-op if absent", i.e. set insertion and removal on `subs`. -/
structure Watcher where
  id : Nat
  active : Bool
  deep : Bool
  user : Bool
  lazy : Bool
  sync : Bool
  value : Val
  deps : List Nat
  depIds : Finset Nat
  newDeps : List Nat
  newDepIds : Finset Nat
  subs : Finset Nat

/-- `Watcher.addDep(dep)`: record the tracker in the current collection at
most once, and subscribe to it (`dep.addSub(this)`) only if the previous
collection did not already hold it. -/
def Watcher.addDep (w : Watcher) (depId : Nat) : Watcher :=
  if depId ∈ w.newDepIds then w
  else
    let w1 := { w with newDepIds := insert depId w.newDepIds,
                       newDeps := w.newDeps ++ [depId] }
    if depId ∈ w1.depIds then w1
    else { w1 with subs := insert depId w1.subs }

/-- `Watcher.cleanupDeps()`: unsubscribe (`dep.removeSub(this)`) from every
previously-collected tracker absent from the current collection, then swap
the previous/current sets and clear the current ones. -/
def Watcher.cleanupDeps (w : Watcher) : Watcher :=
  let subs1 := w.deps.foldl
    (fun acc d => if d ∈ w.newDepIds then acc else acc.erase d) w.subs
  { w with subs := subs1,
           depIds := w.newDepIds, newDepIds := ∅,
           deps := w.newDeps, newDeps := [] }

/-- One evaluation of a watcher's target, as its dependency collection
observes it: `touched` lists, in order (duplicates allowed), the ids of the
trackers whose `depend()` ran while the evaluator executed — `Dep.depend`
(modelled from the spec, `dep.js` not being under `src/`) calls
`addDep` on the active watcher; `result` is the produced value;
`getterThrows` says whether the evaluator threw after those reads;
`cbThrows` says whether the registered callback throws when invoked. -/
structure EvalEnv where
  touched : List Nat
  result : Val
  getterThrows : Bool
  cbThrows : Bool

/-- `Watcher.get()`: push self as the active target, run the evaluator
(collecting dependencies via `addDep`), and on every exit path — the
`finally` block — pop the target and run `cleanupDeps`.  A throwing evaluator
is caught and reported for a user watcher (the value stays `undefined`), and
re-thrown for any other watcher, which `none` encodes; the deep-mode
`traverse` only touches further trackers, which `touched` already lists. -/
def Watcher.get (w : Watcher) (env : EvalEnv) : Watcher × Option Val :=
  let w1 := env.touched.foldl Watcher.addDep w
  let w2 := w1.cleanupDeps
  if env.getterThrows then
    if w2.user then (w2, some .undef) else (w2, none)
  else (w2, some env.result)

/-- `Watcher.run()`: a no-op unless `active`; otherwise re-evaluate via
`get`, and invoke the callback with `(value, oldValue)` exactly when the new
value differs (`!==`), or is an object/array, or the watcher is in deep mode.
The returned list holds the callback invocations (with their argument pair)
and the flag says whether an exception escaped `run`: a user watcher's
callback runs inside `invokeWithErrorHandling` (modelled from the spec:
`core/util/error.js` is not under `src/`; it catches the callback's exception
and routes it to the error channel), while a non-user callback is called
directly, so only its exceptions escape. -/
def Watcher.run (w : Watcher) (env : EvalEnv) : Watcher × List (Val × Val) × Bool :=
  if w.active then
    match w.get env with
    | (w1, none) => (w1, [], true)
    | (w1, some value) =>
      if value ≠ w1.value ∨ isObject value = true ∨ w1.deep = true then
        let oldValue := w1.value
        let w2 := { w1 with value := value }
        if w2.user then (w2, [(value, oldValue)], false)
        else (w2, [(value, oldValue)], env.cbThrows)
      else (w1, [], false)
  else (w, [], false)

/-- `Watcher.teardown()`: if still active, unsubscribe
(`this.deps[i].removeSub(this)`) from every tracker of the previous
collection and clear the `active` flag.  (The removal from `vm._watchers`
concerns the owning component instance, outside the watcher/tracker state.) -/
def Watcher.teardown (w : Watcher) : Watcher :=
  if w.active then
    { w with subs := w.deps.foldl (fun acc d => acc.erase d) w.subs,
             active := false }
  else w

/-! ### Watcher lemmas -/

/-- `addDep` only touches the dependency-collection fields. -/
theorem addDep_config (w : Watcher) (d : Nat) :
    (w.addDep d).value = w.value ∧ (w.addDep d).deep = w.deep ∧
    (w.addDep d).user = w.user ∧ (w.addDep d).active = w.active ∧
    (w.addDep d).lazy = w.lazy := by
  unfold Watcher.addDep
  by_cases h1 : d ∈ w.newDepIds
  · simp [h1]
  · by_cases h2 : d ∈ w.depIds <;> simp [h1, h2]

theorem foldl_addDep_config (l : List Nat) :
    ∀ w : Watcher, (l.foldl Watcher.addDep w).value = w.value ∧
      (l.foldl Watcher.addDep w).deep = w.deep ∧
      (l.foldl Watcher.addDep w).user = w.user ∧
      (l.foldl Watcher.addDep w).active = w.active ∧
      (l.foldl Watcher.addDep w).lazy = w.lazy := by
  induction l with
  | nil => intro w; simp
  | cons d t ih =>
    intro w
    obtain ⟨a1, a2, a3, a4, a5⟩ := addDep_config w d
    obtain ⟨b1, b2, b3, b4, b5⟩ := ih (w.addDep d)
    rw [List.foldl_cons]
    exact ⟨b1.trans a1, b2.trans a2, b3.trans a3, b4.trans a4, b5.trans a5⟩

theorem cleanupDeps_config (w : Watcher) :
    w.cleanupDeps.value = w.value ∧ w.cleanupDeps.deep = w.deep ∧
    w.cleanupDeps.user = w.user ∧ w.cleanupDeps.active = w.active ∧
    w.cleanupDeps.lazy = w.lazy := by
  unfold Watcher.cleanupDeps
  exact ⟨rfl, rfl, rfl, rfl, rfl⟩

/-- `get` returns the state produced by folding `addDep` over the touched
trackers and then running `cleanupDeps` — on every exit path, thrown or not. -/
theorem get_fst_eq (w : Watcher) (env : EvalEnv) :
    (w.get env).1 = (env.touched.foldl Watcher.addDep w).cleanupDeps := by
  unfold Watcher.get
  by_cases hg : env.getterThrows = true
  · by_cases hu : ((env.touched.foldl Watcher.addDep w).cleanupDeps).user = true <;>
      simp [hg, hu]
  · simp [hg]

theorem get_config (w : Watcher) (env : EvalEnv) :
    (w.get env).1.value = w.value ∧ (w.get env).1.deep = w.deep ∧
    (w.get env).1.user = w.user ∧ (w.get env).1.active = w.active := by
  rw [get_fst_eq]
  obtain ⟨c1, c2, c3, c4, _⟩ := cleanupDeps_config (env.touched.foldl Watcher.addDep w)
  obtain ⟨f1, f2, f3, f4, _⟩ := foldl_addDep_config env.touched w
  exact ⟨c1.trans f1, c2.trans f2, c3.trans f3, c4.trans f4⟩

/-- `get` returns `some env.result` whenever the evaluator does not throw. -/
theorem get_snd_eq (w : Watcher) (env : EvalEnv) (hg : env.getterThrows = false) :
    (w.get env).2 = some env.result := by
  unfold Watcher.get
  simp [hg]

/-- **C4** — For a non-lazy active watcher whose evaluator completes, `run`
invokes the registered callback if and only if the re-evaluated value differs
from the cached value by reference inequality, or the new value is an
object/array (`isObject`), or the watcher is in deep mode; when it does, the
single invocation receives `(newValue, oldValue)`; and for a user watcher no
callback exception escapes `run` (the callback goes through the
error-handling wrapper). -/
theorem run_invokes_callback_iff (w : Watcher) (env : EvalEnv)
    (ha : w.active = true) (hl : w.lazy = false) (hg : env.getterThrows = false) :
    ((w.run env).2.1 ≠ [] ↔
      (env.result ≠ w.value ∨ isObject env.result = true ∨ w.deep = true)) ∧
    ((w.run env).2.1 ≠ [] → (w.run env).2.1 = [(env.result, w.value)]) ∧
    (w.user = true → (w.run env).2.2 = false) := by
  obtain ⟨c1, c2, c3, c4⟩ := get_config w env
  have hpair : w.get env = ((w.get env).1, some env.result) := by
    rw [← get_snd_eq w env hg]
  have hrun : w.run env =
      (if env.result ≠ (w.get env).1.value ∨ isObject env.result = true ∨
          (w.get env).1.deep = true then
        if ((w.get env).1).user = true then
          ({ (w.get env).1 with value := env.result },
            [(env.result, (w.get env).1.value)], false)
        else
          ({ (w.get env).1 with value := env.result },
            [(env.result, (w.get env).1.value)], env.cbThrows)
      else ((w.get env).1, [], false)) := by
    unfold Watcher.run
    rw [if_pos ha, hpair]
  rw [hrun, c1, c2, c3]
  by_cases hcond : env.result ≠ w.value ∨ isObject env.result = true ∨ w.deep = true
  · rw [if_pos hcond]
    by_cases hu : w.user = true <;> simp [hu, hcond]
  · rw [if_neg hcond]
    simp [hcond]

/-- Concrete instance data for the C4 witness: an active, non-lazy, non-deep
user watcher caching `prim 0`, whose evaluator touches nothing and produces
`prim 1` without throwing (the callback would throw, but is wrapped). -/
def wC4 : Watcher :=
  ⟨1, true, false, true, false, false, .prim 0, [], ∅, [], ∅, ∅⟩

def envC4 : EvalEnv := ⟨[], .prim 1, false, true⟩

/-- Witness for C4 at a concrete watcher and evaluation. -/
theorem run_invokes_callback_iff_w :
    ((wC4.run envC4).2.1 ≠ [] ↔
      (envC4.result ≠ wC4.value ∨ isObject envC4.result = true ∨ wC4.deep = true)) ∧
    ((wC4.run envC4).2.1 ≠ [] → (wC4.run envC4).2.1 = [(envC4.result, wC4.value)]) ∧
    (wC4.user = true → (wC4.run envC4).2.2 = false) :=
  run_invokes_callback_iff wC4 envC4 rfl rfl rfl

/-! ### Dependency reconciliation (`addDep` / `cleanupDeps` across `get`) -/

/-- Effect of folding `addDep` over the trackers touched by one evaluation.
The hypotheses are the collection invariants holding at evaluation entry
(current-collection list matches its id set and anything newly collected but
not previously held is already subscribed). -/
theorem foldl_addDep_sets (l : List Nat) :
    ∀ w : Watcher, w.newDeps.toFinset = w.newDepIds → w.newDeps.Nodup →
      w.newDepIds \ w.depIds ⊆ w.subs →
      (l.foldl Watcher.addDep w).newDepIds = w.newDepIds ∪ l.toFinset ∧
      (l.foldl Watcher.addDep w).newDeps.toFinset =
        (l.foldl Watcher.addDep w).newDepIds ∧
      (l.foldl Watcher.addDep w).newDeps.Nodup ∧
      (l.foldl Watcher.addDep w).subs = w.subs ∪ (l.toFinset \ w.depIds) ∧
      (l.foldl Watcher.addDep w).depIds = w.depIds ∧
      (l.foldl Watcher.addDep w).deps = w.deps := by
  induction l with
  | nil =>
    intro w h1 h2 h3
    exact ⟨by simp, h1, h2, by simp, rfl, rfl⟩
  | cons d t ih =>
    intro w h1 h2 h3
    rw [List.foldl_cons]
    by_cases hd : d ∈ w.newDepIds
    · have heq : w.addDep d = w := by unfold Watcher.addDep; rw [if_pos hd]
      rw [heq]
      obtain ⟨g1, g2, g3, g4, g5, g6⟩ := ih w h1 h2 h3
      have hds : d ∈ w.depIds ∨ d ∈ w.subs := by
        by_cases hdd : d ∈ w.depIds
        · exact Or.inl hdd
        · exact Or.inr (h3 (Finset.mem_sdiff.mpr ⟨hd, hdd⟩))
      refine ⟨?_, g2, g3, ?_, g5, g6⟩
      · rw [g1, List.toFinset_cons]
        ext x
        by_cases hxd : x = d
        · subst hxd; simp [hd]
        · simp [hxd]
      · rw [g4, List.toFinset_cons]
        ext x
        by_cases hxd : x = d
        · subst hxd
          rcases hds with hds | hds <;> simp [hds]
        · simp [hxd]
    · have hdn : d ∉ w.newDeps := by
        intro hx
        exact hd (h1 ▸ List.mem_toFinset.mpr hx)
      have hfin : (w.newDeps ++ [d]).toFinset = insert d w.newDepIds := by
        rw [List.toFinset_append, h1]
        ext x
        by_cases hxd : x = d
        · subst hxd; simp
        · simp [hxd]
      have hnodup : (w.newDeps ++ [d]).Nodup := by
        simp [List.nodup_append, h2, hdn]
      by_cases hdd : d ∈ w.depIds
      · have heq : w.addDep d =
            { w with newDepIds := insert d w.newDepIds,
                     newDeps := w.newDeps ++ [d] } := by
          unfold Watcher.addDep
          rw [if_neg hd]
          simp [hdd]
        rw [heq]
        have hi3 : insert d w.newDepIds \ w.depIds ⊆ w.subs := by
          intro x hx
          simp only [Finset.mem_sdiff, Finset.mem_insert] at hx
          obtain ⟨rfl | hx1, hx2⟩ := hx
          · exact absurd hdd hx2
          · exact h3 (Finset.mem_sdiff.mpr ⟨hx1, hx2⟩)
        obtain ⟨g1, g2, g3, g4, g5, g6⟩ := ih
          { w with newDepIds := insert d w.newDepIds, newDeps := w.newDeps ++ [d] }
          hfin hnodup hi3
        refine ⟨?_, g2, g3, ?_, g5, g6⟩
        · rw [g1, List.toFinset_cons]
          show insert d w.newDepIds ∪ t.toFinset = w.newDepIds ∪ insert d t.toFinset
          ext x
          by_cases hxd : x = d
          · subst hxd; simp
          · simp [hxd]
        · rw [g4, List.toFinset_cons]
          show w.subs ∪ (t.toFinset \ w.depIds) =
            w.subs ∪ (insert d t.toFinset \ w.depIds)
          ext x
          by_cases hxd : x = d
          · subst hxd; simp [hdd]
          · simp [hxd]
      · have heq : w.addDep d =
            { w with newDepIds := insert d w.newDepIds,
                     newDeps := w.newDeps ++ [d],
                     subs := insert d w.subs } := by
          unfold Watcher.addDep
          rw [if_neg hd]
          simp [hdd]
        rw [heq]
        have hj3 : insert d w.newDepIds \ w.depIds ⊆ insert d w.subs := by
          intro x hx
          simp only [Finset.mem_sdiff, Finset.mem_insert] at hx ⊢
          obtain ⟨rfl | hx1, hx2⟩ := hx
          · exact Or.inl rfl
          · exact Or.inr (h3 (Finset.mem_sdiff.mpr ⟨hx1, hx2⟩))
        obtain ⟨g1, g2, g3, g4, g5, g6⟩ := ih
          { w with newDepIds := insert d w.newDepIds, newDeps := w.newDeps ++ [d],
                   subs := insert d w.subs }
          hfin hnodup hj3
        refine ⟨?_, g2, g3, ?_, g5, g6⟩
        · rw [g1, List.toFinset_cons]
          show insert d w.newDepIds ∪ t.toFinset = w.newDepIds ∪ insert d t.toFinset
          ext x
          by_cases hxd : x = d
          · subst hxd; simp
          · simp [hxd]
        · rw [g4, List.toFinset_cons]
          show insert d w.subs ∪ (t.toFinset \ w.depIds) =
            w.subs ∪ (insert d t.toFinset \ w.depIds)
          ext x
          by_cases hxd : x = d
          · subst hxd; simp [hdd]
          · simp [hxd]

/-- The conditional-erase fold of `cleanupDeps` removes exactly the
previously-collected trackers missing from the current collection. -/
theorem foldl_erase_cond (T : Finset Nat) (l : List Nat) :
    ∀ s : Finset Nat,
      l.foldl (fun acc d => if d ∈ T then acc else acc.erase d) s =
        s \ (l.toFinset \ T) := by
  induction l with
  | nil => intro s; simp
  | cons d t ih =>
    intro s
    rw [List.foldl_cons]
    by_cases hd : d ∈ T
    · rw [if_pos hd, ih, List.toFinset_cons]
      ext x
      by_cases hxd : x = d
      · subst hxd; simp [hd]
      · simp [hxd]
    · rw [if_neg hd, ih, List.toFinset_cons]
      ext x
      by_cases hxd : x = d
      · subst hxd; simp [hd]
      · simp [hxd]

theorem cleanupDeps_sets (w : Watcher) :
    w.cleanupDeps.subs = w.subs \ (w.deps.toFinset \ w.newDepIds) ∧
    w.cleanupDeps.depIds = w.newDepIds ∧ w.cleanupDeps.deps = w.newDeps ∧
    w.cleanupDeps.newDeps = [] ∧ w.cleanupDeps.newDepIds = ∅ := by
  unfold Watcher.cleanupDeps
  exact ⟨foldl_erase_cond w.newDepIds w.deps w.subs, rfl, rfl, rfl, rfl⟩

/-- The between-evaluations invariant of a watcher's dependency bookkeeping:
subscriptions agree with the previously-collected tracker set, the
previous-collection list matches its id set without duplicates, and the
current collection is empty. -/
def depInvariant (w : Watcher) : Prop :=
  w.subs = w.depIds ∧ w.deps.toFinset = w.depIds ∧ w.deps.Nodup ∧
  w.newDeps = [] ∧ w.newDepIds = ∅

/-- **C5** — After every evaluation (`Watcher.get`), the watcher is
subscribed to exactly the trackers whose `depend()` was reached during that
evaluation: `subs`, `depIds` and the `deps` list all equal the touched set,
each tracker appears at most once in `deps` (`Nodup`), the previous/current
sets are swapped (the current ones end empty), and all of this holds whether
or not the evaluator throws, because `cleanupDeps` runs in the `finally`
block on every exit path (the statement quantifies over `env.getterThrows`). -/
theorem get_subscribes_exactly_touched (w : Watcher) (env : EvalEnv)
    (h : depInvariant w) :
    (w.get env).1.subs = env.touched.toFinset ∧
    (w.get env).1.depIds = env.touched.toFinset ∧
    (w.get env).1.deps.toFinset = env.touched.toFinset ∧
    (w.get env).1.deps.Nodup ∧
    (w.get env).1.newDeps = [] ∧ (w.get env).1.newDepIds = ∅ := by
  obtain ⟨h1, h2, h3, h4, h5⟩ := h
  obtain ⟨f1, f2, f3, f4, f5, f6⟩ :=
    foldl_addDep_sets env.touched w (by rw [h4, h5]; simp) (by rw [h4]; simp)
      (by rw [h5]; simp)
  rw [get_fst_eq]
  obtain ⟨c1, c2, c3, c4, c5⟩ := cleanupDeps_sets (env.touched.foldl Watcher.addDep w)
  have hT : (env.touched.foldl Watcher.addDep w).newDepIds = env.touched.toFinset := by
    rw [f1, h5]; simp
  refine ⟨?_, ?_, ?_, ?_, c4, c5⟩
  · rw [c1, f4, f6, h2, hT, h1]
    ext x; simp
    tauto
  · rw [c2, hT]
  · rw [c3, f2, hT]
  · rw [c3]; exact f3

/-- Concrete instance data for the C5 witness: a fresh watcher evaluating a
target that reads trackers 1, 2 and then 1 again, then throws. -/
def wC5 : Watcher := ⟨1, true, false, false, false, false, .undef, [], ∅, [], ∅, ∅⟩

def envC5 : EvalEnv := ⟨[1, 2, 1], .prim 3, true, false⟩

/-- Witness for C5 at a concrete watcher and evaluation (one that throws). -/
theorem get_subscribes_exactly_touched_w :
    (wC5.get envC5).1.subs = envC5.touched.toFinset ∧
    (wC5.get envC5).1.depIds = envC5.touched.toFinset ∧
    (wC5.get envC5).1.deps.toFinset = envC5.touched.toFinset ∧
    (wC5.get envC5).1.deps.Nodup ∧
    (wC5.get envC5).1.newDeps = [] ∧ (wC5.get envC5).1.newDepIds = ∅ :=
  get_subscribes_exactly_touched wC5 envC5
    ⟨rfl, by simp [wC5], by simp [wC5], rfl, rfl⟩

/-! ### Teardown -/

theorem foldl_erase_all (l : List Nat) :
    ∀ s : Finset Nat, l.foldl (fun acc d => acc.erase d) s = s \ l.toFinset := by
  induction l with
  | nil => intro s; simp
  | cons d t ih =>
    intro s
    rw [List.foldl_cons, ih]
    ext x
    simp [Finset.mem_erase]
    tauto

/-- The environment of the C7 scheduler scenario: watcher 1 was torn down
mid-flight (inactive), watcher 2 is live; neither dirties anything. -/
def tornEnv : SchedEnv := ⟨fun _ => [], fun x => x != 1⟩

/-- **C7** — Tearing down an active watcher immediately removes it from every
tracker's subscriber list (its `subs` view becomes empty, given the invariant
that it is only subscribed to previously-collected trackers) and marks it
inactive, and every subsequent `run()` on it is a no-op: the state is
unchanged, no callback fires and nothing is thrown.  In addition, a flush
whose queue still holds a torn-down watcher (id 1, inactive in `tornEnv`)
completes normally: the loop passes through both entries and resets the
`flushing` flag. -/
theorem teardown_then_run_noop (w : Watcher)
    (ha : w.active = true) (hs : w.subs ⊆ w.deps.toFinset) :
    (w.teardown.active = false ∧ w.teardown.subs = ∅ ∧
      ∀ env, w.teardown.run env = (w.teardown, [], false)) ∧
    ((flushSchedulerQueue tornEnv 10 (enqueueAll [2, 1] idleSched)).flushing = false ∧
      (flushSchedulerQueue tornEnv 10 (enqueueAll [2, 1] idleSched)).runLog = [1, 2]) := by
  have heq : w.teardown =
      { w with subs := w.deps.foldl (fun acc d => acc.erase d) w.subs,
               active := false } := by
    unfold Watcher.teardown
    rw [if_pos ha]
  refine ⟨⟨?_, ?_, ?_⟩, by decide, by decide⟩
  · rw [heq]
  · rw [heq]
    simp only [foldl_erase_all]
    exact Finset.sdiff_eq_empty_iff_subset.mpr hs
  · intro env
    have hact : w.teardown.active = false := by rw [heq]
    unfold Watcher.run
    rw [hact]
    simp

/-! ### Watcher construction from a string expression -/

/-- Modelled from the spec: `parsePath` (in `core/util/lang.js`, not under
`src/`) accepts only "simple dot-delimited paths" — per its bail regular
expression, a string whose characters are all word characters, digits,
`.`, `_` or `$` — and returns no getter for anything else. -/
def isSimplePath (s : String) : Bool :=
  s.toList.all (fun c => c.isAlphanum ∨ c = '.' ∨ c = '_' ∨ c = '$')

/-- Modelled from the spec: `parsePath` returns a path getter for a simple
dot-delimited path and `undefined` otherwise.  What the path getter reads and
produces depends on the instance data, so it is supplied as an evaluation
descriptor by the caller. -/
def parsePath (s : String) (pathEval : EvalEnv) : Option EvalEnv :=
  if isSimplePath s then some pathEval else none

/-- `noop`'s evaluation: reads nothing, produces `undefined`, never throws. -/
def noopEval : EvalEnv := ⟨[], .undef, false, false⟩

/-- The `Watcher` constructor for a string `expOrFn` and default (all-false)
options: the getter is `parsePath(expOrFn)`, falling back to `noop` when the
path fails to parse (with a dev-mode `warn`, a console diagnostic — nothing
is thrown there); then, being non-lazy, `this.value = this.get()`.  Returns
the constructed watcher and whether construction threw (an exception escaping
`get` would propagate out of the constructor). -/
def mkStringWatcher (wid : Nat) (expOrFn : String) (pathEval : EvalEnv) :
    Watcher × Bool :=
  let env := (parsePath expOrFn pathEval).getD noopEval
  let w0 : Watcher :=
    ⟨wid, true, false, false, false, false, .undef, [], ∅, [], ∅, ∅⟩
  let r := w0.get env
  ({ r.1 with value := r.2.getD .undef }, r.2.isNone)

/-- **C10** — Constructing a watcher with a string expression that is not a
simple dot-delimited path does not throw: the getter is replaced by `noop`,
so evaluation succeeds (no exception escapes), the cached value is
`undefined`, and the watcher subscribes to no dependency trackers
(`subs`, `deps` and `depIds` all end empty). -/
theorem string_watcher_bad_path_noop (wid : Nat) (expOrFn : String)
    (pathEval : EvalEnv) (h : isSimplePath expOrFn = false) :
    (mkStringWatcher wid expOrFn pathEval).2 = false ∧
    (mkStringWatcher wid expOrFn pathEval).1.value = .undef ∧
    (mkStringWatcher wid expOrFn pathEval).1.subs = ∅ ∧
    (mkStringWatcher wid expOrFn pathEval).1.deps = [] ∧
    (mkStringWatcher wid expOrFn pathEval).1.depIds = ∅ := by
  have hp : parsePath expOrFn pathEval = none := by
    unfold parsePath
    rw [h]
    simp
  unfold mkStringWatcher
  rw [hp]
  refine ⟨rfl, rfl, rfl, rfl, rfl⟩

/-- Witness for C10: the expression `a+b` is not a simple dot-delimited
path. -/
theorem string_watcher_bad_path_noop_w :
    (mkStringWatcher 1 "a+b" noopEval).2 = false ∧
    (mkStringWatcher 1 "a+b" noopEval).1.value = .undef ∧
    (mkStringWatcher 1 "a+b" noopEval).1.subs = ∅ ∧
    (mkStringWatcher 1 "a+b" noopEval).1.deps = [] ∧
    (mkStringWatcher 1 "a+b" noopEval).1.depIds = ∅ :=
  string_watcher_bad_path_noop 1 "a+b" noopEval (by decide)

/-- Concrete instance data for the C7 witness. -/
def wC7 : Watcher :=
  ⟨1, true, false, false, false, false, .undef, [4, 7], {4, 7}, [], ∅, {4, 7}⟩

/-- Witness for C7 at a concrete subscribed active watcher. -/
theorem teardown_then_run_noop_w :
    (wC7.teardown.active = false ∧ wC7.teardown.subs = ∅ ∧
      ∀ env, wC7.teardown.run env = (wC7.teardown, [], false)) ∧
    ((flushSchedulerQueue tornEnv 10 (enqueueAll [2, 1] idleSched)).flushing = false ∧
      (flushSchedulerQueue tornEnv 10 (enqueueAll [2, 1] idleSched)).runLog = [1, 2]) :=
  teardown_then_run_noop wC7 rfl (by decide)

/-! ### Tick scheduler (`nextTick` / `flushCallbacks`)

Callbacks are identified by numeric ids; `reg c` lists, in order, the ids of
the callbacks that callback `c` itself registers via `nextTick` while it
runs (each wrapped callback is guarded by its own try/catch, so a throwing
callback affects nothing modelled here).  `timers` is a ghost counter of how
many times `timerFunc()` was invoked, i.e. how many asynchronous flushes of
the callback list were scheduled. -/

structure TickState where
  callbacks : List Nat
  pending : Bool
  timers : Nat
deriving Repr

/-- The idle tick state: empty pending list, no flush scheduled. -/
def idleTick : TickState := ⟨[], false, 0⟩

/-- `nextTick(cb)`: push the (wrapped) callback onto `callbacks`; if no flush
is pending, mark `pending` and invoke `timerFunc()` to schedule exactly one
asynchronous `flushCallbacks`.  (The promise-returning no-callback variant
differs only in which wrapper is pushed.) -/
def nextTick (c : Nat) (s : TickState) : TickState :=
  let s1 := { s with callbacks := s.callbacks ++ [c] }
  if s1.pending then s1 else { s1 with pending := true, timers := s1.timers + 1 }

/-- `flushCallbacks()`: clear `pending`, snapshot the list
(`callbacks.slice(0)`), clear it, then run every snapshotted callback in
order — each of which may register new callbacks through `nextTick`.
Returns the resulting state and the snapshot (the callbacks executed by
this flush, in execution order). -/
def flushCallbacks (reg : Nat → List Nat) (s : TickState) : TickState × List Nat :=
  let s1 := { s with pending := false }
  let copies := s1.callbacks
  let s2 := { s1 with callbacks := [] }
  (copies.foldl (fun acc c => (reg c).foldl (fun acc2 r => nextTick r acc2) acc) s2,
    copies)

theorem nextTickAll_state (cs : List Nat) :
    ∀ s : TickState, (cs.foldl (fun acc c => nextTick c acc) s).callbacks =
        s.callbacks ++ cs ∧
      (cs.foldl (fun acc c => nextTick c acc) s).pending =
        (s.pending || !cs.isEmpty) ∧
      (cs.foldl (fun acc c => nextTick c acc) s).timers =
        (if s.pending = false ∧ cs ≠ [] then s.timers + 1 else s.timers) := by
  induction cs with
  | nil => intro s; simp
  | cons c t ih =>
    intro s
    rw [List.foldl_cons]
    obtain ⟨i1, i2, i3⟩ := ih (nextTick c s)
    by_cases hp : s.pending
    · have hc : nextTick c s = { s with callbacks := s.callbacks ++ [c] } := by
        unfold nextTick
        simp [hp]
      refine ⟨?_, ?_, ?_⟩
      · rw [i1, hc]; simp
      · rw [i2, hc]; simp [hp]
      · rw [i3, hc]; simp [hp]
    · have hc : nextTick c s =
          { s with callbacks := s.callbacks ++ [c], pending := true,
                   timers := s.timers + 1 } := by
        unfold nextTick
        simp [hp]
      refine ⟨?_, ?_, ?_⟩
      · rw [i1, hc]; simp
      · rw [i2, hc]; simp
      · rw [i3, hc]; simp [hp]

/-- Running the snapshot accumulates, in snapshot order, everything the
executed callbacks register. -/
theorem flush_foldl_callbacks (reg : Nat → List Nat) (copies : List Nat) :
    ∀ s : TickState,
      (copies.foldl (fun acc c => (reg c).foldl
          (fun acc2 r => nextTick r acc2) acc) s).callbacks =
        s.callbacks ++ copies.flatMap reg := by
  induction copies with
  | nil => intro s; simp
  | cons c t ih =>
    intro s
    rw [List.foldl_cons, ih]
    rw [(nextTickAll_state (reg c) s).1]
    simp

/-- **C6** — All `N` callbacks registered through `nextTick` synchronously
before any flush occurs are executed by the next `flushCallbacks` in
registration order within that single flush (`timerFunc` was invoked exactly
once for the whole batch when it is nonempty); and every callback registered
from inside the running flush is not executed in that pass — the list is
snapshotted and cleared before iterating — but left pending, in order, for a
subsequent flush cycle, which then executes exactly those. -/
theorem nextTick_flush_order (cs : List Nat) (reg : Nat → List Nat)
    (h : cs ≠ []) :
    (flushCallbacks reg (cs.foldl (fun acc c => nextTick c acc) idleTick)).2 = cs ∧
    (cs.foldl (fun acc c => nextTick c acc) idleTick).timers = 1 ∧
    (flushCallbacks reg (cs.foldl (fun acc c => nextTick c acc) idleTick)).1.callbacks =
      cs.flatMap reg ∧
    (flushCallbacks reg
      (flushCallbacks reg (cs.foldl (fun acc c => nextTick c acc) idleTick)).1).2 =
      cs.flatMap reg := by
  obtain ⟨a1, a2, a3⟩ := nextTickAll_state cs idleTick
  have hcb : (cs.foldl (fun acc c => nextTick c acc) idleTick).callbacks = cs := by
    rw [a1]
    simp [idleTick]
  have hsnap : ∀ s : TickState, (flushCallbacks reg s).2 = s.callbacks := by
    intro s
    unfold flushCallbacks
    rfl
  have hstate : ∀ s : TickState, (flushCallbacks reg s).1.callbacks =
      s.callbacks.flatMap reg := by
    intro s
    unfold flushCallbacks
    rw [flush_foldl_callbacks]
    simp
  refine ⟨by rw [hsnap, hcb], ?_, by rw [hstate, hcb], by rw [hsnap, hstate, hcb]⟩
  rw [a3]
  simp [idleTick, h]

/-- Witness for C6: three callbacks registered up front run in order in one
flush; the one callback that callback 2 registers (id 9) is deferred to, and
runs in, the next flush. -/
theorem nextTick_flush_order_w :
    (flushCallbacks (fun c => if c = 2 then [9] else [])
      ([1, 2, 3].foldl (fun acc c => nextTick c acc) idleTick)).2 = [1, 2, 3] ∧
    ([1, 2, 3].foldl (fun acc c => nextTick c acc) idleTick).timers = 1 ∧
    (flushCallbacks (fun c => if c = 2 then [9] else [])
      ([1, 2, 3].foldl (fun acc c => nextTick c acc) idleTick)).1.callbacks =
      [1, 2, 3].flatMap (fun c => if c = 2 then [9] else []) ∧
    (flushCallbacks (fun c => if c = 2 then [9] else [])
      (flushCallbacks (fun c => if c = 2 then [9] else [])
        ([1, 2, 3].foldl (fun acc c => nextTick c acc) idleTick)).1).2 =
      [1, 2, 3].flatMap (fun c => if c = 2 then [9] else []) :=
  nextTick_flush_order [1, 2, 3] (fun c => if c = 2 then [9] else []) (by decide)

/-! ### Static optimizer (`optimize` / `markStatic` / `markStaticRoots`)

AST nodes: `elem` is a type-1 element, `expr` a type-2 interpolation node,
`text` a type-3 plain-text node.  Each node carries its `static` annotation
(JS leaves it `undefined` before the pass, embedded as `false`); elements
additionally carry `staticRoot` and `staticInFor`.  Element bookkeeping that
the optimizer reads is collected in `ElemData`: `pre` (`v-pre` on this
element), `hasBindings`, `hasIf` (`node.if`), `hasFor` (`node.for`), `once`,
`inlineTemplate` (`attrsMap['inline-template'] != null`) and `staticKeysOk`,
the result of `Object.keys(node).every(isStaticKey)` — a per-node input,
since the embedding has fixed fields while the JS check inspects the node's
dynamic key set.  `ifConditions` holds the `v-else-if`/`v-else` blocks; the
optimizer's loops start at index 1 (index 0 is the node itself), so
`ifBlocks` lists exactly the blocks from index 1 on.  The reserved-tag
predicate is the injected `options.isReservedTag`; the parent chain that
`isDirectChildOfTemplateFor` climbs is passed down as the list of
`(tag, hasFor)` ancestor pairs, nearest first. -/

structure ElemData where
  tag : String
  pre : Bool
  hasBindings : Bool
  hasIf : Bool
  hasFor : Bool
  once : Bool
  inlineTemplate : Bool
  staticKeysOk : Bool
deriving Repr, DecidableEq

inductive AST where
  | text (staticFlag : Bool)
  | expr (staticFlag : Bool)
  | elem (d : ElemData) (staticFlag staticRoot staticInFor : Bool)
      (children : List AST) (ifBlocks : List AST)

/-- The node's `static` annotation. -/
def staticOf : AST → Bool
  | .text s => s
  | .expr s => s
  | .elem _ s _ _ _ _ => s

/-- The node's `staticRoot` annotation (non-elements never carry one). -/
def staticRootOf : AST → Bool
  | .elem _ _ sr _ _ _ => sr
  | _ => false

/-- The node's children (non-elements have none). -/
def childrenOf : AST → List AST
  | .elem _ _ _ _ cs _ => cs
  | _ => []

/-- `isBuiltInTag` from `shared/util` (not under `src/`): modelled from the
spec and the optimizer's own comment — the built-in tags are `slot` and
`component`. -/
def isBuiltInTag (tag : String) : Bool :=
  tag == "slot" || tag == "component"

/-- `isDirectChildOfTemplateFor`: climb the parent chain; stop with `false`
at the first non-`template` ancestor, succeed at the first `template`
ancestor carrying `v-for`. -/
def isDirectChildOfTemplateFor : List (String × Bool) → Bool
  | [] => false
  | (tag, hasFor) :: rest =>
    if tag != "template" then false
    else if hasFor then true
    else isDirectChildOfTemplateFor rest

/-- `isStatic` on a type-1 element node (the type-2/type-3 cases are handled
at the match in `markStatic`): `v-pre` forces static; otherwise the node must
have no bindings, no `v-if`/`v-for`, not be a built-in tag, be a
platform-reserved tag, not be a direct child of a `template` with `v-for`,
and have only allow-listed keys. -/
def isStaticElem (res : String → Bool) (anc : List (String × Bool))
    (d : ElemData) : Bool :=
  d.pre ||
    (!d.hasBindings && !d.hasIf && !d.hasFor && !isBuiltInTag d.tag &&
      res d.tag && !isDirectChildOfTemplateFor anc && d.staticKeysOk)

mutual

/-- Pass 1, `markStatic(node)`: set `node.static = isStatic(node)`; for an
element that is a non-reserved tag and not `slot` and not an inline-template
host, return without visiting children; otherwise mark every child (and every
`ifConditions` block from index 1 on), clearing the node's `static` whenever
one of them is non-static.  (`markStaticList` is the `for` loop over a node
list, applying `markStatic` to each entry in order.) -/
def markStatic (res : String → Bool) (anc : List (String × Bool)) : AST → AST
  | .text _ => .text true
  | .expr _ => .expr false
  | .elem d _ sr sif children ifBlocks =>
    let st := isStaticElem res anc d
    if !(res d.tag) && d.tag != "slot" && !d.inlineTemplate then
      .elem d st sr sif children ifBlocks
    else
      let children2 := markStaticList res ((d.tag, d.hasFor) :: anc) children
      let st2 := st && children2.all staticOf
      let ifBlocks2 := markStaticList res anc ifBlocks
      let st3 := st2 && ifBlocks2.all staticOf
      .elem d st3 sr sif children2 ifBlocks2

def markStaticList (res : String → Bool) (anc : List (String × Bool)) :
    List AST → List AST
  | [] => []
  | x :: xs => markStatic res anc x :: markStaticList res anc xs

end

/-- The static-root benefit test of pass 2:
`node.children.length && !(children.length === 1 && children[0].type === 3)` —
at least one child, and not exactly one plain-text child. -/
def staticRootCond : List AST → Bool
  | [] => false
  | [c] =>
    match c with
    | .text _ => false
    | _ => true
  | _ :: _ :: _ => true

mutual

/-- Pass 2, `markStaticRoots(node, isInFor)`: record `staticInFor` on
static/once elements; a static element passing the benefit test becomes a
static root and the pass returns without descending; otherwise `staticRoot`
is cleared and the pass recurses into children (with `isInFor || node.for`)
and `ifConditions` blocks (with `isInFor`). -/
def markStaticRoots (isInFor : Bool) : AST → AST
  | .elem d st _ sif children ifBlocks =>
    let sif2 := if st || d.once then isInFor else sif
    if st && staticRootCond children then
      .elem d st true sif2 children ifBlocks
    else
      let children2 := markStaticRootsList (isInFor || d.hasFor) children
      let ifBlocks2 := markStaticRootsList isInFor ifBlocks
      .elem d st false sif2 children2 ifBlocks2
  | n => n

def markStaticRootsList (isInFor : Bool) : List AST → List AST
  | [] => []
  | x :: xs => markStaticRoots isInFor x :: markStaticRootsList isInFor xs

end

/-- `optimize(root, options)` for a non-null root: pass 1 then pass 2 (the
root has no parent, so the ancestor chain starts empty, and `isInFor` starts
`false`). -/
def optimize (res : String → Bool) (root : AST) : AST :=
  markStaticRoots false (markStatic res [] root)

/-! ### Concrete optimizer scenarios -/

/-- A web-platform-style reserved-tag predicate for the concrete scenarios:
`div` and `span` are reserved (platform) tags, everything else — components,
`slot`, `template` — is not. -/
def optRes : String → Bool := fun t => t == "div" || t == "span"

/-- A plain element: no `v-pre`, no bindings, no structural directives, not
an inline-template host, allow-listed keys only. -/
def baseElem (tag : String) : ElemData :=
  ⟨tag, false, false, false, false, false, false, true⟩

/-- `<div><span>ab</span></div>` after parsing: a static `div` whose single
child `span` has two plain-text children. -/
def c8Tree : AST :=
  .elem (baseElem "div") false false false
    [.elem (baseElem "span") false false false [.text false, .text false] []] []

/-- `<div v-pre><my-comp/></div>`: a `v-pre` carrier with a component child
(the parser sets `.pre` only on the element carrying the attribute). -/
def vpreTree : AST :=
  .elem { baseElem "div" with pre := true } false false false
    [.elem (baseElem "my-comp") false false false [] []] []

/-- `<slot>text</slot>`: a `slot` element with one plain-text child. -/
def slotTree : AST := .elem (baseElem "slot") false false false [.text false] []

/-- `<my-comp inline-template>text</my-comp>`: an inline-template host with
one plain-text child. -/
def itTree : AST :=
  .elem { baseElem "my-comp" with inlineTemplate := true } false false false
    [.text false] []

/-- **C8 counterexample** — After the two passes on `c8Tree`, the inner
`span` is static, has two children that are not a sole plain-text node, and
yet is NOT a static root (`markStaticRoots` stopped at the outer `div`, the
claimed iff fails for nested nodes); and the `v-pre` element of `vpreTree`
ends up NOT marked static (its component child is non-static and the children
loop clears the parent's flag), against the claim's "regardless of bindings
or directives". -/
theorem static_root_iff_ce :
    (staticOf ((childrenOf (optimize optRes c8Tree)).headD (.expr false)) = true ∧
      staticRootCond (childrenOf
        ((childrenOf (optimize optRes c8Tree)).headD (.expr false))) = true ∧
      staticRootOf ((childrenOf (optimize optRes c8Tree)).headD (.expr false)) = false) ∧
    staticOf (markStatic optRes [] vpreTree) = false :=
  ⟨⟨rfl, rfl, rfl⟩, rfl⟩

/-- **C8 (amended)** — For every element node that `markStaticRoots` is
invoked on (the root, and recursively every child of a non-static-root
element), `staticRoot` is set to `true` iff the node is static, has at least
one child, and its children are not exactly one plain-text node; when a node
becomes a static root the pass returns at once, leaving the whole subtree
(children included) untouched, so descendants keep `staticRoot` unset; and
`markStatic`'s own-node test marks a `v-pre` element static regardless of its
own bindings and directives (unconditionally so for a childless element —
a non-static visited child can still clear the flag afterwards, as the
counterexample shows). -/
theorem static_root_amended :
    (∀ inF d st sr sif cs ifs,
      staticRootOf (markStaticRoots inF (.elem d st sr sif cs ifs)) =
        (st && staticRootCond cs)) ∧
    (∀ inF d st sr sif cs ifs, (st && staticRootCond cs) = true →
      childrenOf (markStaticRoots inF (.elem d st sr sif cs ifs)) = cs) ∧
    (∀ res anc tag hb hi hf onc it ok s sr sif,
      staticOf (markStatic res anc
        (.elem ⟨tag, true, hb, hi, hf, onc, it, ok⟩ s sr sif [] [])) = true) := by
  refine ⟨?_, ?_, ?_⟩
  · intro inF d st sr sif cs ifs
    simp only [markStaticRoots]
    by_cases h : (st && staticRootCond cs) = true
    · rw [if_pos h, h]
      rfl
    · rw [if_neg h]
      have h2 : (st && staticRootCond cs) = false := by
        cases hsc : st && staticRootCond cs
        · rfl
        · exact absurd hsc h
      rw [h2]
      rfl
  · intro inF d st sr sif cs ifs h
    simp only [markStaticRoots]
    rw [if_pos h]
    rfl
  · intro res anc tag hb hi hf onc it ok s sr sif
    simp only [markStatic]
    by_cases g : (!(res tag) && tag != "slot" && !it) = true
    · rw [if_pos g]
      simp [staticOf, isStaticElem]
    · rw [if_neg g]
      simp [staticOf, isStaticElem, markStaticList]

/-- Witness for the amended C8 statement: a concrete static `div` with two
plain-text children passes the benefit test, becomes a static root, and its
children are untouched. -/
theorem static_root_amended_w :
    childrenOf (markStaticRoots false
      (.elem (baseElem "div") true false false [.text true, .text true] [])) =
      [.text true, .text true] ∧
    staticRootOf (markStaticRoots false
      (.elem (baseElem "div") true false false [.text true, .text true] [])) =
      (true && staticRootCond [.text true, .text true]) :=
  ⟨static_root_amended.2.1 false (baseElem "div") true false false
      [.text true, .text true] [] (by decide),
    static_root_amended.1 false (baseElem "div") true false false
      [.text true, .text true] []⟩

/-- **C9 counterexample** — `markStatic` DOES descend into a `slot` element:
the plain-text child of `slotTree` enters the pass unmarked and leaves it
marked static, so slot children are visited for static marking (the claim
says a `slot` tag is never descended into). -/
theorem markStatic_descends_slot_ce :
    staticOf ((childrenOf (markStatic optRes [] slotTree)).headD (.expr false)) =
      true ∧
    staticOf ((childrenOf slotTree).headD (.expr false)) = false :=
  ⟨rfl, rfl⟩

/-- **C9 (amended)** — During `markStatic`, an element is not descended into
exactly when it is a non-reserved (component) tag AND not a `slot` tag AND
not an inline-template host: for such a node only its own `static` flag is
computed and its children and if-blocks are returned unvisited (this is the
early return that excludes component slot content from static marking).
`slot` tags and inline-template hosts, by contrast, ARE descended into: the
text child of `slotTree` and of `itTree` comes out marked static. -/
theorem markStatic_no_descend_amended :
    (∀ res anc d s sr sif cs ifs, res d.tag = false → d.tag ≠ "slot" →
      d.inlineTemplate = false →
      markStatic res anc (.elem d s sr sif cs ifs) =
        .elem d (isStaticElem res anc d) sr sif cs ifs) ∧
    staticOf ((childrenOf (markStatic optRes [] slotTree)).headD (.expr false)) =
      true ∧
    staticOf ((childrenOf (markStatic optRes [] itTree)).headD (.expr false)) =
      true := by
  refine ⟨?_, rfl, rfl⟩
  intro res anc d s sr sif cs ifs h1 h2 h3
  simp only [markStatic]
  have g : (!(res d.tag) && d.tag != "slot" && !d.inlineTemplate) = true := by
    simp [h1, h3, bne_iff_ne, h2]
  rw [if_pos g]

/-- Witness for the amended C9 statement: a component element (`my-comp`,
non-reserved, not `slot`, no inline template) with a text child is not
descended into — the child stays unmarked. -/
theorem markStatic_no_descend_amended_w :
    markStatic optRes [] (.elem (baseElem "my-comp") false false false
      [.text false] []) =
      .elem (baseElem "my-comp") (isStaticElem optRes [] (baseElem "my-comp"))
        false false [.text false] [] :=
  markStatic_no_descend_amended.1 optRes [] (baseElem "my-comp") false false false
    [.text false] [] (by decide) (by decide) rfl

end Vue
